import Mathlib

/-!
# Verification of the rpc-project remote introspection layer

Shallow embedding of the Darwin-side introspection logic of the rpc-project
client (`rpcclient/darwin/client.py` and `rpcclient/darwin/processes.py`),
together with theorems settling the specification claims about it.

Remote behaviour (the rpcserver stub, the target kernel and the
CoreFoundation runtime) is modelled by explicit oracles or by concrete
semantic models noted at each definition; the Python control flow itself is
translated directly from the source.
-/

namespace RpcProject

/-! ## Value bridge (`DarwinClient.cf` / `DarwinClient.decode_cf`)

`CfSerializable` values: the Python shapes accepted by the bridge, plus an
`other` constructor standing for any Python object outside the listed
shapes (sets, arbitrary objects, ...).  A timezone-aware instant is
represented by its epoch offset, a 64-bit float by its IEEE-754 bit
pattern (the binary property-list format stores the 8 raw bytes verbatim),
and byte buffers by their byte lists. -/

inductive CfValue where
  | null
  | bool (b : Bool)
  | date (epoch : Int)
  | str (s : String)
  | bytes (bs : List Nat)
  | int (n : Int)
  | real (bits : Nat)
  | array (xs : List CfValue)
  | dict (kvs : List (String × CfValue))
  | other (tag : String)

mutual

/-- `supportedB v` holds exactly when `v` is built only from the listed
StructuredValue shapes (no `other` anywhere inside). -/
def supportedB : CfValue → Bool
  | .null => true
  | .bool _ => true
  | .date _ => true
  | .str _ => true
  | .bytes _ => true
  | .int _ => true
  | .real _ => true
  | .array xs => supportedList xs
  | .dict kvs => supportedPairs kvs
  | .other _ => false

def supportedList : List CfValue → Bool
  | [] => true
  | x :: xs => supportedB x && supportedList xs

def supportedPairs : List (String × CfValue) → Bool
  | [] => true
  | (_, v) :: kvs => supportedB v && supportedPairs kvs

end

/-- Modelled from the spec: Python `plistlib.dumps(o, fmt=FMT_BINARY)`
(external library, not part of this repository's sources).  Serialization
succeeds exactly on the listed StructuredValue shapes and is faithful on
them; any other local shape raises (here: `none`) before any byte exists. -/
def dumps (o : CfValue) : Option CfValue :=
  if supportedB o then some o else none

/-- Insert a key/value pair into a key-sorted pair list (helper for the
canonical key order used to model the unordered CF mapping containers). -/
def insertSorted (kv : String × CfValue) :
    List (String × CfValue) → List (String × CfValue)
  | [] => [kv]
  | x :: xs => if kv.1 ≤ x.1 then kv :: x :: xs else x :: insertSorted kv xs

/-- Sort a pair list by key (insertion sort). -/
def sortPairs : List (String × CfValue) → List (String × CfValue)
  | [] => []
  | x :: xs => insertSorted x (sortPairs xs)

mutual

/-- Modelled from the spec: the CoreFoundation property-list round trip
(`propertyListWithData` with mutable containers, later re-serialized by
`dataWithPropertyList`) preserves every listed value shape but stores
text-keyed mappings unordered; the model canonicalizes each mapping to key
order, recursively. -/
def canon : CfValue → CfValue
  | .null => .null
  | .bool b => .bool b
  | .date t => .date t
  | .str s => .str s
  | .bytes bs => .bytes bs
  | .int n => .int n
  | .real r => .real r
  | .array xs => .array (canonList xs)
  | .dict kvs => .dict (sortPairs (canonPairs kvs))
  | .other t => .other t

def canonList : List CfValue → List CfValue
  | [] => []
  | x :: xs => canon x :: canonList xs

def canonPairs : List (String × CfValue) → List (String × CfValue)
  | [] => []
  | (k, v) :: kvs => (k, canon v) :: canonPairs kvs

end

/-- A remote CoreFoundation object reference as produced by the bridge:
either the canonical null object `kCFNull`, or a property-list object tree
(whose mappings carry no order, canonicalized here). -/
inductive RemoteObj where
  | null
  | obj (v : CfValue)

/-- The remote invocations performed by `cf` / `decode_cf`, in order. -/
inductive RemoteCall where
  | kCFNullDeref
  | CFDataCreate
  | propertyListWithData
  | dataWithPropertyList
  | CFDataGetLength
  | CFDataGetBytePtrPeek
  | release

/-- The error raised by `cf` on an unsupported StructuredValue shape
(spec taxonomy name for the serializer's local failure). -/
inductive EncodingError where
  | unsupported

/-- `DarwinClient.cf` (client.py:138-146): `None` maps directly to the
remote `kCFNull` object; otherwise the value is serialized locally by
`plistlib.dumps` (raising on unsupported shapes before any remote call),
copied remotely via `CFDataCreate` and deserialized by
`propertyListWithData` as mutable containers.  Returns the outcome together
with the list of remote calls actually performed. -/
def cf (o : CfValue) : Except EncodingError RemoteObj × List RemoteCall :=
  match o with
  | .null => (.ok .null, [.kCFNullDeref])
  | o =>
    match dumps o with
    | none => (.error .unsupported, [])
    | some p => (.ok (.obj (canon p)), [.CFDataCreate, .propertyListWithData])

/-- `DarwinClient.decode_cf` (client.py:128-136): serialize the remote
object to binary property-list data (`dataWithPropertyList`); a null result
means absence and yields Python `None` (i.e. `.null`); otherwise fetch
length and byte pointer, peek the bytes, parse with `plistlib.loads`, and
release the temporary data object. -/
def decode_cf (r : RemoteObj) : CfValue × List RemoteCall :=
  match r with
  | .null => (.null, [.dataWithPropertyList])
  | .obj v =>
    (v, [.dataWithPropertyList, .CFDataGetLength, .CFDataGetBytePtrPeek, .release])

mutual

/-- Mapping-order-insensitive equality on `CfValue`: structural equality
except that the entries of a text-keyed mapping may appear in any order. -/
inductive CfEquiv : CfValue → CfValue → Prop where
  | null : CfEquiv .null .null
  | bool (b : Bool) : CfEquiv (.bool b) (.bool b)
  | date (t : Int) : CfEquiv (.date t) (.date t)
  | str (s : String) : CfEquiv (.str s) (.str s)
  | bytes (bs : List Nat) : CfEquiv (.bytes bs) (.bytes bs)
  | int (n : Int) : CfEquiv (.int n) (.int n)
  | real (r : Nat) : CfEquiv (.real r) (.real r)
  | array {xs ys : List CfValue} : CfEquivList xs ys →
      CfEquiv (.array xs) (.array ys)
  | dict {kvs mid kvs' : List (String × CfValue)} :
      List.Perm kvs mid → CfEquivPairs mid kvs' →
      CfEquiv (.dict kvs) (.dict kvs')
  | other (t : String) : CfEquiv (.other t) (.other t)

inductive CfEquivList : List CfValue → List CfValue → Prop where
  | nil : CfEquivList [] []
  | cons {x y : CfValue} {xs ys : List CfValue} :
      CfEquiv x y → CfEquivList xs ys → CfEquivList (x :: xs) (y :: ys)

inductive CfEquivPairs :
    List (String × CfValue) → List (String × CfValue) → Prop where
  | nil : CfEquivPairs [] []
  | cons {k : String} {v w : CfValue} {kvs kws : List (String × CfValue)} :
      CfEquiv v w → CfEquivPairs kvs kws →
      CfEquivPairs ((k, v) :: kvs) ((k, w) :: kws)

end

theorem insertSorted_perm (kv : String × CfValue) :
    ∀ l : List (String × CfValue), List.Perm (insertSorted kv l) (kv :: l)
  | [] => List.Perm.refl _
  | x :: xs => by
    unfold insertSorted
    by_cases h : kv.1 ≤ x.1
    · simp [h]
    · simp only [h, if_false]
      exact List.Perm.trans (List.Perm.cons x (insertSorted_perm kv xs))
        (List.Perm.swap kv x xs)

theorem sortPairs_perm :
    ∀ l : List (String × CfValue), List.Perm (sortPairs l) l
  | [] => List.Perm.refl _
  | x :: xs =>
    List.Perm.trans (insertSorted_perm x (sortPairs xs))
      (List.Perm.cons x (sortPairs_perm xs))

mutual

theorem canon_equiv : ∀ v : CfValue, CfEquiv (canon v) v
  | .null => .null
  | .bool b => .bool b
  | .date t => .date t
  | .str s => .str s
  | .bytes bs => .bytes bs
  | .int n => .int n
  | .real r => .real r
  | .array xs => .array (canonList_equiv xs)
  | .dict kvs => .dict (sortPairs_perm (canonPairs kvs)) (canonPairs_equiv kvs)
  | .other t => .other t

theorem canonList_equiv : ∀ xs : List CfValue, CfEquivList (canonList xs) xs
  | [] => .nil
  | x :: xs => .cons (canon_equiv x) (canonList_equiv xs)

theorem canonPairs_equiv :
    ∀ kvs : List (String × CfValue), CfEquivPairs (canonPairs kvs) kvs
  | [] => .nil
  | (_, v) :: kvs => .cons (canon_equiv v) (canonPairs_equiv kvs)

end

/-- C1: for every StructuredValue of a listed shape (and their nestings),
decoding the result of encoding it yields a value equal to the original
under mapping-order-insensitive equality: `decode_cf` after `cf` is the
identity up to `CfEquiv`. -/
theorem cf_decode_cf_roundtrip (v : CfValue) (h : supportedB v = true) :
    ∃ r, (cf v).1 = Except.ok r ∧ CfEquiv (decode_cf r).1 v := by
  cases v with
  | null => exact ⟨RemoteObj.null, rfl, CfEquiv.null⟩
  | other t => simp [supportedB] at h
  | bool b =>
    exact ⟨RemoteObj.obj (canon (.bool b)), by simp [cf, dumps, h], canon_equiv _⟩
  | date t =>
    exact ⟨RemoteObj.obj (canon (.date t)), by simp [cf, dumps, h], canon_equiv _⟩
  | str s =>
    exact ⟨RemoteObj.obj (canon (.str s)), by simp [cf, dumps, h], canon_equiv _⟩
  | bytes bs =>
    exact ⟨RemoteObj.obj (canon (.bytes bs)), by simp [cf, dumps, h], canon_equiv _⟩
  | int n =>
    exact ⟨RemoteObj.obj (canon (.int n)), by simp [cf, dumps, h], canon_equiv _⟩
  | real r =>
    exact ⟨RemoteObj.obj (canon (.real r)), by simp [cf, dumps, h], canon_equiv _⟩
  | array xs =>
    exact ⟨RemoteObj.obj (canon (.array xs)), by simp [cf, dumps, h], canon_equiv _⟩
  | dict kvs =>
    exact ⟨RemoteObj.obj (canon (.dict kvs)), by simp [cf, dumps, h], canon_equiv _⟩

/-- Concrete instance of the round-trip theorem at the nested value
`[{"key": "value"}, [1, 2]]` from the serialization test. -/
theorem cf_decode_cf_roundtrip_witness :
    ∃ r, (cf (.array [.dict [("key", .str "value")],
        .array [.int 1, .int 2]])).1 = Except.ok r ∧
      CfEquiv (decode_cf r).1
        (.array [.dict [("key", .str "value")], .array [.int 1, .int 2]]) :=
  cf_decode_cf_roundtrip _
    (by simp [supportedB, supportedList, supportedPairs])

/-- C8: for every local value whose shape is not one of the listed
StructuredValue shapes, `cf` fails with an EncodingError and performs no
remote call at all (nothing is transmitted to the target). -/
theorem cf_unsupported_no_transmission (v : CfValue) (h : supportedB v = false) :
    (cf v).1 = Except.error EncodingError.unsupported ∧ (cf v).2 = [] := by
  cases v with
  | null => simp [supportedB] at h
  | other t => simp [cf, dumps, supportedB]
  | bool b => simp [supportedB] at h
  | date t => simp [supportedB] at h
  | str s => simp [supportedB] at h
  | bytes bs => simp [supportedB] at h
  | int n => simp [supportedB] at h
  | real r => simp [supportedB] at h
  | array xs => exact ⟨by simp [cf, dumps, h], by simp [cf, dumps, h]⟩
  | dict kvs => exact ⟨by simp [cf, dumps, h], by simp [cf, dumps, h]⟩

/-- Concrete instance: encoding a sequence holding an unsupported object
fails with EncodingError and transmits nothing. -/
theorem cf_unsupported_no_transmission_witness :
    (cf (.array [.int 1, .other "socket"])).1 =
        Except.error EncodingError.unsupported ∧
      (cf (.array [.int 1, .other "socket"])).2 = [] :=
  cf_unsupported_no_transmission _
    (by simp [supportedB, supportedList])

/-! ## Runtime object classifier (`DarwinClient.is_objc_type`)

The remote 8-byte dereference (`symbol[0]` at item size 8) is modelled by
an oracle `peek8 : Nat → Option Nat`; `none` stands for the
`RpcClientException` raised when the address cannot be read. -/

/-- Mask for tagged pointers, from objc-internal.h (client.py:49). -/
def OBJC_TAG_MASK : Nat := 1 <<< 63

/-- The per-architecture isa-magic (mask, value) pairs (client.py:42-47):
ARM64 first, then X86_64. -/
def ISA_MAGICS : List (Nat × Nat) :=
  [(0x000003f000000001, 0x000001a000000001),
   (0x001f800000000001, 0x001d800000000001)]

/-- The loop `for mask, value in ISA_MAGICS: if x & mask == value` used
twice inside `is_objc_type`. -/
def matchesIsaMagic (x : Nat) : Bool :=
  ISA_MAGICS.any fun m => x &&& m.1 == m.2

/-- `DarwinClient.is_objc_type` (client.py:165-191): tagged pointers are
ObjC objects; addresses that themselves match an isa magic are classes,
not objects; otherwise dereference 8 bytes (a failed read classifies
not-object) and test the fetched isa against the magics. -/
def is_objc_type (peek8 : Nat → Option Nat) (symbol : Nat) : Bool :=
  if symbol &&& OBJC_TAG_MASK == OBJC_TAG_MASK then
    true
  else if matchesIsaMagic symbol then
    false
  else
    match peek8 symbol with
    | none => false
    | some isa => matchesIsaMagic isa

theorem and_tag_mask_eq (s : Nat) :
    (s &&& OBJC_TAG_MASK == OBJC_TAG_MASK) = s.testBit 63 := by
  have h : OBJC_TAG_MASK = 2 ^ 63 := by norm_num [OBJC_TAG_MASK, Nat.shiftLeft_eq]
  rw [h, Nat.and_two_pow]
  cases hb : s.testBit 63 <;> simp

/-- C2: the classifier's decision, test by test and in order: a set top
address bit (bit 63) always classifies object; otherwise an address
matching an isa-magic pair always classifies not-object; otherwise a
failed 8-byte peek classifies not-object; otherwise the classification is
exactly whether the peeked isa matches an isa-magic pair. -/
theorem is_objc_type_decision (peek8 : Nat → Option Nat) (symbol : Nat) :
    (symbol.testBit 63 = true → is_objc_type peek8 symbol = true) ∧
    (symbol.testBit 63 = false → matchesIsaMagic symbol = true →
      is_objc_type peek8 symbol = false) ∧
    (symbol.testBit 63 = false → matchesIsaMagic symbol = false →
      peek8 symbol = none → is_objc_type peek8 symbol = false) ∧
    (∀ isa, symbol.testBit 63 = false → matchesIsaMagic symbol = false →
      peek8 symbol = some isa → is_objc_type peek8 symbol = matchesIsaMagic isa) := by
  refine ⟨?_, ?_, ?_, ?_⟩
  · intro ht
    simp [is_objc_type, and_tag_mask_eq, ht]
  · intro ht hm
    simp [is_objc_type, and_tag_mask_eq, ht, hm]
  · intro ht hm hp
    simp [is_objc_type, and_tag_mask_eq, ht, hm, hp]
  · intro isa ht hm hp
    simp [is_objc_type, and_tag_mask_eq, ht, hm, hp]

/-- Concrete instance: the tagged value `2 ^ 63` is classified object even
though its memory cannot be read at all. -/
theorem is_objc_type_decision_witness :
    is_objc_type (fun _ => none) (2 ^ 63) = true :=
  (is_objc_type_decision (fun _ => none) (2 ^ 63)).1 (by decide)

/-! ## Memory access layer (`Process.peek` / `Process.peek_str`)

`vm_read` runs in the remote kernel and is modelled by an oracle returning
its kern_return status, the reported output length written through the
output-length pointer, and the contents of the returned buffer. -/

/-- The error raised on a peek/poke failure (`BadReturnValueError` in the
source; `MemoryAccessError` in the spec taxonomy). -/
inductive MemoryAccessError where
  | badReturnValue

/-- Outcome of one remote `vm_read(task, address, size, &buf, &cnt)`. -/
structure VmReadResult where
  ret : Nat
  dataCnt : Nat
  data : Nat → Nat

/-- `Process.peek` (processes.py:173-179): call `vm_read`; raise on a
nonzero status; otherwise read back `size` bytes from the address the call
returned (`p_buf[0].peek(size)`).  The reported length `p_size` is
allocated and passed but never compared with `size`. -/
def peek (vm_read : Nat → Nat → VmReadResult) (address size : Nat) :
    Except MemoryAccessError (List Nat) :=
  let r := vm_read address size
  if r.ret ≠ 0 then Except.error .badReturnValue
  else Except.ok ((List.range size).map r.data)

/-- Modelled from the spec: for a fixed remote memory `mem` (a partial map
from addresses to bytes), `vm_read` succeeds exactly when the whole
requested chunk lies in mapped memory, returning those bytes; a chunk that
crosses an unmapped boundary fails.  This instantiates the `peek` used by
`peek_str`. -/
def peekMem (mem : Nat → Option Nat) (address size : Nat) :
    Except MemoryAccessError (List Nat) :=
  if (List.range size).all (fun i => (mem (address + i)).isSome) then
    Except.ok ((List.range size).map fun i => (mem (address + i)).getD 0)
  else
    Except.error .badReturnValue

/-- `Process.PEEK_STR_CHUNK_SIZE` (processes.py:154). -/
def PEEK_STR_CHUNK_SIZE : Nat := 0x100

/-- Python `bytes.decode()` on the NUL-free prefix, modelled as the
one-byte-per-character decoding. -/
def decodeBytes (bs : List Nat) : String :=
  String.mk (bs.map Char.ofNat)

/-- The `while size:` loop of `Process.peek_str` (processes.py:181-193),
with an explicit fuel parameter to make the loop a total function: peek a
chunk, append it, return the decoded prefix before the first NUL if one
appeared, otherwise advance; on a peek failure halve the chunk size and
retry from the same address; falling out of the loop returns `none`
(Python's implicit `return None`). -/
def peek_str_go (mem : Nat → Option Nat) :
    Nat → Nat → List Nat → Nat → Except MemoryAccessError (Option String)
  | 0, _, _, _ => Except.ok none
  | fuel + 1, address, buf, size =>
    if size = 0 then Except.ok none
    else
      match peekMem mem address size with
      | .error _ => peek_str_go mem fuel address buf (size / 2)
      | .ok chunk =>
        if (buf ++ chunk).contains 0 then
          Except.ok (some (decodeBytes ((buf ++ chunk).takeWhile (fun b => b != 0))))
        else
          peek_str_go mem fuel (address + size) (buf ++ chunk) size

/-- `Process.peek_str` (processes.py:181-193): adaptive chunked read of a
NUL-terminated string starting with 256-byte chunks. -/
def peek_str (mem : Nat → Option Nat) (fuel address : Nat) :
    Except MemoryAccessError (Option String) :=
  peek_str_go mem fuel address [] PEEK_STR_CHUNK_SIZE

/-- The byte stored at offset `i` from `addr0` (`0` where unmapped). -/
def byteAt (mem : Nat → Option Nat) (addr0 i : Nat) : Nat :=
  (mem (addr0 + i)).getD 0

/-- The first `k` bytes of memory starting at `addr0`. -/
def bytesUpTo (mem : Nat → Option Nat) (addr0 k : Nat) : List Nat :=
  (List.range k).map (byteAt mem addr0)

theorem bytesUpTo_add (mem : Nat → Option Nat) (addr0 k s : Nat) :
    bytesUpTo mem addr0 (k + s) =
      bytesUpTo mem addr0 k ++ (List.range s).map (fun i => byteAt mem addr0 (k + i)) := by
  simp [bytesUpTo, List.range_add, List.map_map, Function.comp]

theorem takeWhile_append_head_false {p : Nat → Bool} :
    ∀ l₁ : List Nat, (∀ x ∈ l₁, p x = true) → ∀ a, p a = false →
      ∀ l₂ : List Nat, (l₁ ++ a :: l₂).takeWhile p = l₁
  | [], _, a, ha, l₂ => by simp [List.takeWhile, ha]
  | x :: l₁, h, a, ha, l₂ => by
    have hx : p x = true := h x (List.mem_cons_self x l₁)
    simp only [List.cons_append, List.takeWhile, hx]
    exact congrArg (x :: ·)
      (takeWhile_append_head_false l₁ (fun y hy => h y (List.mem_cons_of_mem x hy)) a ha l₂)

theorem peek_str_go_correct (mem : Nat → Option Nat) (addr0 n : Nat)
    (hmap : ∀ i, i ≤ n → (mem (addr0 + i)).isSome = true)
    (hnz : ∀ i, i < n → byteAt mem addr0 i ≠ 0)
    (hz : mem (addr0 + n) = some 0) :
    ∀ fuel k size, k ≤ n → 1 ≤ size → n - k + size + 1 ≤ fuel →
      peek_str_go mem fuel (addr0 + k) (bytesUpTo mem addr0 k) size =
        Except.ok (some (decodeBytes (bytesUpTo mem addr0 n))) := by
  intro fuel
  induction fuel with
  | zero => intro k size _ _ hf; omega
  | succ fuel IH =>
    intro k size hk hs hf
    have hsz : ¬ size = 0 := by omega
    rw [peek_str_go, if_neg hsz]
    cases hp : peekMem mem (addr0 + k) size with
    | error e =>
      have hs2 : 2 ≤ size := by
        rcases Nat.lt_or_ge size 2 with h2 | h2
        · exfalso
          have h1 : size = 1 := by omega
          subst h1
          have hall : (List.range 1).all
              (fun i => (mem ((addr0 + k) + i)).isSome) = true := by
            simpa using hmap k hk
          rw [peekMem, if_pos hall] at hp
          exact Except.noConfusion hp
        · exact h2
      exact IH k (size / 2) hk (by omega) (by omega)
    | ok chunk =>
      have hchunk : chunk = (List.range size).map fun i => (mem ((addr0 + k) + i)).getD 0 := by
        rw [peekMem] at hp
        split at hp
        · exact (Except.ok.injEq _ _).mp hp |>.symm
        · exact Except.noConfusion hp
      have hbuf : bytesUpTo mem addr0 k ++ chunk = bytesUpTo mem addr0 (k + size) := by
        rw [bytesUpTo_add, hchunk]
        simp [byteAt, Nat.add_assoc]
      dsimp only
      rw [hbuf]
      by_cases hks : n < k + size
      · have hmem0 : (0 : Nat) ∈ bytesUpTo mem addr0 (k + size) := by
          rw [bytesUpTo]
          exact List.mem_map.mpr ⟨n, List.mem_range.mpr hks, by simp [byteAt, hz]⟩
        have hcont : (bytesUpTo mem addr0 (k + size)).contains 0 = true :=
          List.elem_iff.mpr hmem0
        rw [if_pos hcont]
        obtain ⟨t, hts⟩ : ∃ t, k + size = (n + 1) + t := ⟨k + size - (n + 1), by omega⟩
        have hdec : bytesUpTo mem addr0 (k + size) =
            bytesUpTo mem addr0 n ++ byteAt mem addr0 n ::
              (List.range t).map (fun i => byteAt mem addr0 (n + 1 + i)) := by
          rw [hts, bytesUpTo_add mem addr0 (n + 1) t, bytesUpTo_add mem addr0 n 1]
          have h1 : List.range 1 = [0] := rfl
          simp [h1]
        have htw : (bytesUpTo mem addr0 (k + size)).takeWhile (fun b => b != 0) =
            bytesUpTo mem addr0 n := by
          rw [hdec]
          apply takeWhile_append_head_false
          · intro x hx
            obtain ⟨j, hj, hbj⟩ := List.mem_map.mp hx
            have hxne : x ≠ 0 := hbj ▸ hnz j (List.mem_range.mp hj)
            simpa using hxne
          · simp [byteAt, hz]
        rw [htw]
      · have hle : k + size ≤ n := by omega
        have hcont : (bytesUpTo mem addr0 (k + size)).contains 0 = false := by
          apply Bool.eq_false_iff.mpr
          intro hc
          obtain ⟨j, hj, hbj⟩ := List.mem_map.mp (List.elem_iff.mp hc)
          exact hnz j (Nat.lt_of_lt_of_le (List.mem_range.mp hj) hle) hbj
        rw [if_neg (by rw [hcont]; simp), Nat.add_assoc]
        exact IH (k + size) size (by omega) hs (by omega)

/-- C3: for every address whose memory holds a NUL-terminated string (all
bytes up to and including the first NUL mapped), `peek_str` — chunked
reads starting at 256 bytes, halving and retrying from the same address on
each chunk failure — returns the decoded prefix before the first NUL,
in particular also when chunk reads fail before one succeeds. -/
theorem peek_str_reads_nul_terminated (mem : Nat → Option Nat) (addr0 n : Nat)
    (hmap : ∀ i, i ≤ n → (mem (addr0 + i)).isSome = true)
    (hnz : ∀ i, i < n → byteAt mem addr0 i ≠ 0)
    (hz : mem (addr0 + n) = some 0)
    (fuel : Nat) (hfuel : n + PEEK_STR_CHUNK_SIZE + 1 ≤ fuel) :
    peek_str mem fuel addr0 =
      Except.ok (some (decodeBytes (bytesUpTo mem addr0 n))) := by
  have h := peek_str_go_correct mem addr0 n hmap hnz hz fuel 0 PEEK_STR_CHUNK_SIZE
    (Nat.zero_le n) (by norm_num [PEEK_STR_CHUNK_SIZE]) (by omega)
  simpa [peek_str, bytesUpTo] using h

/-- Concrete instance: memory mapped only on `[1000, 1002]` holding
`"hi\x00"`; every chunk read of size 4 and above fails, the string is
still recovered. -/
theorem peek_str_reads_nul_terminated_witness :
    peek_str
        (fun a => if a = 1000 then some 104 else if a = 1001 then some 105
          else if a = 1002 then some 0 else none) 300 1000 =
      Except.ok (some (decodeBytes (bytesUpTo
        (fun a => if a = 1000 then some 104 else if a = 1001 then some 105
          else if a = 1002 then some 0 else none) 1000 2))) :=
  peek_str_reads_nul_terminated _ 1000 2
    (by decide) (by decide) (by decide) 300 (by norm_num [PEEK_STR_CHUNK_SIZE])

theorem peek_str_go_ok (mem : Nat → Option Nat) :
    ∀ fuel address buf size, ∃ r, peek_str_go mem fuel address buf size = Except.ok r := by
  intro fuel
  induction fuel with
  | zero => exact fun _ _ _ => ⟨none, rfl⟩
  | succ fuel IH =>
    intro address buf size
    rw [peek_str_go]
    by_cases hsz : size = 0
    · exact ⟨none, by rw [if_pos hsz]⟩
    · rw [if_neg hsz]
      cases hp : peekMem mem address size with
      | error e => exact IH address buf (size / 2)
      | ok chunk =>
        dsimp only
        by_cases hc : (buf ++ chunk).contains 0
        · exact ⟨_, by rw [if_pos hc]⟩
        · rw [if_neg hc]
          exact IH (address + size) (buf ++ chunk) size

theorem peek_str_go_unmapped (mem : Nat → Option Nat) (address : Nat)
    (h : mem address = none) :
    ∀ fuel buf size, peek_str_go mem fuel address buf size = Except.ok none := by
  intro fuel
  induction fuel with
  | zero => exact fun _ _ => rfl
  | succ fuel IH =>
    intro buf size
    rw [peek_str_go]
    by_cases hsz : size = 0
    · rw [if_pos hsz]
    · rw [if_neg hsz]
      have hfail : peekMem mem address size = Except.error .badReturnValue := by
        rw [peekMem, if_neg]
        intro hall
        have h0 : (0 : Nat) ∈ List.range size :=
          List.mem_range.mpr (Nat.pos_of_ne_zero hsz)
        have := List.all_eq_true.mp hall 0 h0
        simp [h] at this
      rw [hfail]
      exact IH buf (size / 2)

/-- C9: `peek_str` never propagates a memory-access error: it always
returns a value (every chunk-read failure is absorbed by the halving
retry), and when no chunk can ever be read — the very first byte is
unmapped, so the chunk size halves down to zero with no NUL found — it
returns `none` rather than raising. -/
theorem peek_str_absorbs_memory_errors (mem : Nat → Option Nat)
    (fuel address : Nat) :
    (∃ r, peek_str mem fuel address = Except.ok r) ∧
    (mem address = none → peek_str mem fuel address = Except.ok none) :=
  ⟨peek_str_go_ok mem fuel address [] PEEK_STR_CHUNK_SIZE,
   fun h => peek_str_go_unmapped mem address h fuel [] PEEK_STR_CHUNK_SIZE⟩

/-- Concrete instance: on fully unmapped memory `peek_str` returns `none`
without an error. -/
theorem peek_str_absorbs_memory_errors_witness :
    peek_str (fun _ => none) 300 0 = Except.ok none :=
  (peek_str_absorbs_memory_errors (fun _ => none) 300 0).2 rfl

/-- Refutation of C5 as stated: a `vm_read` that reports status 0 but an
output length of 3 for a 4-byte request still makes `peek` return
successfully — the reported length is never compared with the requested
size. -/
theorem peek_ignores_reported_length :
    peek (fun _ _ => ⟨0, 3, fun _ => 0⟩) 0 4 = Except.ok [0, 0, 0, 0] ∧
      ((fun (_ _ : Nat) => (⟨0, 3, fun _ => 0⟩ : VmReadResult)) 0 4).dataCnt ≠ 4 := by
  constructor
  · rfl
  · decide

/-- C5 amended: `peek(address, size)` fails with MemoryAccessError exactly
when the remote `vm_read` call returns a nonzero status; on a zero status
it succeeds, returning the `size` bytes read back from the buffer address
`vm_read` returned.  The reported output length is passed but not
compared with the requested size. -/
theorem peek_status_decides (vm_read : Nat → Nat → VmReadResult)
    (address size : Nat) :
    ((vm_read address size).ret = 0 →
      peek vm_read address size =
        Except.ok ((List.range size).map (vm_read address size).data)) ∧
    ((vm_read address size).ret ≠ 0 →
      peek vm_read address size = Except.error .badReturnValue) := by
  constructor
  · intro h
    simp [peek, h]
  · intro h
    simp [peek, h]

/-- Concrete instance: a zero status yields the buffer bytes; a nonzero
status raises. -/
theorem peek_status_decides_witness :
    peek (fun _ _ => ⟨0, 4, fun i => i⟩) 0 4 =
        Except.ok ((List.range 4).map (fun i => i)) ∧
      peek (fun _ _ => ⟨1, 4, fun i => i⟩) 0 4 = Except.error .badReturnValue :=
  ⟨(peek_status_decides (fun _ _ => ⟨0, 4, fun i => i⟩) 0 4).1 rfl,
   (peek_status_decides (fun _ _ => ⟨1, 4, fun i => i⟩) 0 4).2 (by decide)⟩

/-! ## File-descriptor enumeration (`Process.fd_structs` / `Process.fds`)

The raw descriptor list returned by the two-call
`proc_pidinfo(PROC_PIDLISTFDS)` size-then-fetch idiom is taken as input;
the per-descriptor `proc_pidfdinfo` detail queries (and the `construct`
parse of the scratch buffer they fill) are modelled by oracles returning
either the parsed detail structure or the failing call's errno. -/

/-- `proc_fdtype` discriminator: the three types the source handles
(`PROX_FDTYPE_VNODE`, `PROX_FDTYPE_SOCKET`, `PROX_FDTYPE_PIPE`), plus any
other numeric type tag. -/
inductive FdType where
  | vnode
  | socket
  | pipe
  | other (n : Nat)
deriving DecidableEq

/-- One entry of the raw `proc_fdinfo` array. -/
structure ProcFdInfo where
  proc_fd : Nat
  proc_fdtype : FdType
deriving DecidableEq

/-- `soi_kind` discriminator (`SOCKINFO_TCP`, `SOCKINFO_IN`,
`SOCKINFO_UN`, anything else). -/
inductive SoKind where
  | tcp
  | inet
  | un
  | other (n : Nat)
deriving DecidableEq

/-- `soi_family` discriminator (`AF_INET`, `AF_INET6`, anything else). -/
inductive SoFamily where
  | af_inet
  | af_inet6
  | other (n : Nat)
deriving DecidableEq

/-- The `insi` fields used by the source: local/remote address and port. -/
structure InetInfo where
  laddr : Nat
  lport : Nat
  faddr : Nat
  fport : Nat
deriving DecidableEq

/-- The parsed `socket_fdinfo.psi` fields the source reads. -/
structure SocketFdInfo where
  soi_kind : SoKind
  soi_family : SoFamily
  pri_tcp_ini : InetInfo
  pri_in : InetInfo
  pri_un_path : String
deriving DecidableEq

/-- The parsed `vnode_fdinfowithpath` fields the source reads. -/
structure VnodeInfoWithPath where
  vip_path : String
deriving DecidableEq

/-- A parsed type-specific detail structure. -/
inductive FdDetail where
  | vnode (v : VnodeInfoWithPath)
  | socket (s : SocketFdInfo)
  | pipe
deriving DecidableEq

/-- `FdStruct` (processes.py:22): a raw descriptor paired with its parsed
detail structure. -/
structure FdStructM where
  fd : ProcFdInfo
  struct : FdDetail
deriving DecidableEq

/-- The three flavors of `proc_pidfdinfo` detail query
(`PROC_PIDFDVNODEPATHINFO`, `PROC_PIDFDSOCKETINFO`,
`PROC_PIDFDPIPEINFO`), each returning the parsed structure or the errno
reported by the client after the failed call. -/
structure DetailQueries where
  vnode : Nat → Except Nat VnodeInfoWithPath
  socket : Nat → Except Nat SocketFdInfo
  pipe : Nat → Except Nat Unit

/-- `errno.EBADF`. -/
def EBADF : Nat := 9

/-- The error raised when a detail query fails with anything but EBADF
(`BadReturnValueError` in the source). -/
inductive BadReturnValueError where
  | badReturnValue
deriving DecidableEq

/-- `Process.fd_structs` (processes.py:271-330): walk the raw descriptor
array; for each of the three handled types run the type-specific detail
query; a failure with errno EBADF skips the entry (an enumeration race,
"lsof treats this as fine"), any other failure aborts the whole call;
descriptors of any other type are passed over without a query. -/
def fd_structs (raws : List ProcFdInfo) (q : DetailQueries) :
    Except BadReturnValueError (List FdStructM) :=
  match raws with
  | [] => .ok []
  | fd :: rest =>
    match fd.proc_fdtype with
    | .vnode =>
      match q.vnode fd.proc_fd with
      | .error e => if e = EBADF then fd_structs rest q else .error .badReturnValue
      | .ok v => (fd_structs rest q).map (fun l => ⟨fd, .vnode v⟩ :: l)
    | .socket =>
      match q.socket fd.proc_fd with
      | .error e => if e = EBADF then fd_structs rest q else .error .badReturnValue
      | .ok s => (fd_structs rest q).map (fun l => ⟨fd, .socket s⟩ :: l)
    | .pipe =>
      match q.pipe fd.proc_fd with
      | .error e => if e = EBADF then fd_structs rest q else .error .badReturnValue
      | .ok _ => (fd_structs rest q).map (fun l => ⟨fd, .pipe⟩ :: l)
    | .other _ => fd_structs rest q

/-- The `Fd` dataclass hierarchy (processes.py:25-83), flattened to a
discriminated variant. -/
inductive Fd where
  | file (fd : Nat) (path : String)
  | pipe (fd : Nat)
  | unix (fd : Nat) (path : String)
  | ipv4tcp (fd laddr lport faddr fport : Nat)
  | ipv6tcp (fd laddr lport faddr fport : Nat)
  | ipv4udp (fd laddr lport faddr fport : Nat)
  | ipv6udp (fd laddr lport faddr fport : Nat)
deriving DecidableEq

/-- `SOCKET_TYPE_DATACLASS` (processes.py:88-97): family × kind chooses
the concrete socket variant; a family outside the table is a KeyError. -/
def socketDataclass (family : SoFamily) (kind : SoKind) :
    Option (Nat → Nat → Nat → Nat → Nat → Fd) :=
  match family, kind with
  | .af_inet, .tcp => some .ipv4tcp
  | .af_inet, .inet => some .ipv4udp
  | .af_inet6, .tcp => some .ipv6tcp
  | .af_inet6, .inet => some .ipv6udp
  | _, _ => none

/-- Python errors that `Process.fds` itself could raise while
classifying (a missing dictionary key; a field access on the wrong
parsed structure). -/
inductive PyError where
  | keyError
  | attributeError
deriving DecidableEq

/-- Build the concrete socket variant from the chosen `insi` info block. -/
def applyInet (mk : Nat → Nat → Nat → Nat → Nat → Fd) (fdnum : Nat)
    (i : InetInfo) : Fd :=
  mk fdnum i.laddr i.lport i.faddr i.fport

/-- The classification loop of `Process.fds` (processes.py:239-269) over
an already-fetched `fd_structs` list: vnode entries become `FileFd`, pipe
entries `PipeFd`; socket entries of kind TCP/IN become the family×kind
variant carrying the matching `insi` block, kind UN becomes `UnixFd`, and
any other socket kind is passed over. -/
def fds_of_structs : List FdStructM → Except PyError (List Fd)
  | [] => .ok []
  | ⟨fd, parsed⟩ :: rest =>
    match fd.proc_fdtype with
    | .vnode =>
      match parsed with
      | .vnode v => (fds_of_structs rest).map (fun l => .file fd.proc_fd v.vip_path :: l)
      | _ => .error .attributeError
    | .pipe => (fds_of_structs rest).map (fun l => .pipe fd.proc_fd :: l)
    | .socket =>
      match parsed with
      | .socket s =>
        if s.soi_kind = .tcp ∨ s.soi_kind = .inet then
          match socketDataclass s.soi_family s.soi_kind with
          | none => .error .keyError
          | some mk =>
            (fds_of_structs rest).map (fun l =>
              applyInet mk fd.proc_fd
                (if s.soi_kind = .tcp then s.pri_tcp_ini else s.pri_in) :: l)
        else if s.soi_kind = .un then
          (fds_of_structs rest).map (fun l => .unix fd.proc_fd s.pri_un_path :: l)
        else
          fds_of_structs rest
      | _ => .error .attributeError
    | .other _ => fds_of_structs rest

/-- Errors observable from `Process.fds` as a whole. -/
inductive FdsError where
  | badReturnValue
  | pyError (e : PyError)
deriving DecidableEq

/-- `Process.fds` (processes.py:239-269): fetch `fd_structs`, then
classify each entry. -/
def fds (raws : List ProcFdInfo) (q : DetailQueries) : Except FdsError (List Fd) :=
  match fd_structs raws q with
  | .error _ => .error .badReturnValue
  | .ok l =>
    match fds_of_structs l with
    | .error e => .error (.pyError e)
    | .ok r => .ok r

/-- The outcome of the detail query `fd_structs` would issue for a raw
descriptor: `none` when its type triggers no query. -/
def detailOutcome (q : DetailQueries) (fd : ProcFdInfo) :
    Option (Except Nat FdDetail) :=
  match fd.proc_fdtype with
  | .vnode => some ((q.vnode fd.proc_fd).map .vnode)
  | .socket => some ((q.socket fd.proc_fd).map .socket)
  | .pipe => some ((q.pipe fd.proc_fd).map (fun _ => .pipe))
  | .other _ => none

/-- A descriptor whose detail query fails with an errno other than EBADF
(the aborting case). -/
def hardFails (q : DetailQueries) (x : ProcFdInfo) : Prop :=
  ∃ e, detailOutcome q x = some (Except.error e) ∧ e ≠ EBADF

/-- One step of the `fd_structs` loop, expressed through
`detailOutcome`. -/
def stepResult (q : DetailQueries) (x : ProcFdInfo)
    (r : Except BadReturnValueError (List FdStructM)) :
    Except BadReturnValueError (List FdStructM) :=
  match detailOutcome q x with
  | none => r
  | some (.error e) => if e = EBADF then r else .error .badReturnValue
  | some (.ok d) => r.map (fun l => ⟨x, d⟩ :: l)

theorem fd_structs_cons (q : DetailQueries) (x : ProcFdInfo)
    (l : List ProcFdInfo) :
    fd_structs (x :: l) q = stepResult q x (fd_structs l q) := by
  cases hx : x.proc_fdtype with
  | vnode =>
    cases hq : q.vnode x.proc_fd with
    | error e => simp [fd_structs, stepResult, detailOutcome, hx, hq, Except.map]
    | ok v => simp [fd_structs, stepResult, detailOutcome, hx, hq, Except.map]
  | socket =>
    cases hq : q.socket x.proc_fd with
    | error e => simp [fd_structs, stepResult, detailOutcome, hx, hq, Except.map]
    | ok s => simp [fd_structs, stepResult, detailOutcome, hx, hq, Except.map]
  | pipe =>
    cases hq : q.pipe x.proc_fd with
    | error e => simp [fd_structs, stepResult, detailOutcome, hx, hq, Except.map]
    | ok u => simp [fd_structs, stepResult, detailOutcome, hx, hq, Except.map]
  | other n => simp [fd_structs, stepResult, detailOutcome, hx]

theorem stepResult_error (q : DetailQueries) (x : ProcFdInfo)
    (hx : ¬ hardFails q x) :
    stepResult q x (Except.error .badReturnValue) = Except.error .badReturnValue := by
  rw [stepResult]
  cases ho : detailOutcome q x with
  | none => rfl
  | some r =>
    cases r with
    | error e =>
      by_cases he : e = EBADF
      · simp [he]
      · exact absurd ⟨e, ho, he⟩ hx
    | ok d => simp [Except.map]

/-- C4: during fd enumeration, a descriptor whose type-specific detail
query fails with errno EBADF is skipped and enumeration continues with
the remaining entries; a detail-query failure with any other errno aborts
the whole call with an error (provided the entries before it did not
already abort it). -/
theorem fd_structs_detail_failure (q : DetailQueries)
    (pre : List ProcFdInfo) (fd : ProcFdInfo) (rest : List ProcFdInfo)
    (e : Nat) (hfd : detailOutcome q fd = some (Except.error e))
    (hpre : ∀ x ∈ pre, ¬ hardFails q x) :
    (e = EBADF →
      fd_structs (pre ++ fd :: rest) q = fd_structs (pre ++ rest) q) ∧
    (e ≠ EBADF →
      fd_structs (pre ++ fd :: rest) q = Except.error .badReturnValue) := by
  induction pre with
  | nil =>
    constructor
    · intro he
      rw [List.nil_append, List.nil_append, fd_structs_cons, stepResult, hfd]
      simp [he]
    · intro he
      rw [List.nil_append, fd_structs_cons, stepResult, hfd]
      simp [he]
  | cons x pre IH =>
    have hx : ¬ hardFails q x := hpre x (List.mem_cons_self x pre)
    have IH2 := IH (fun y hy => hpre y (List.mem_cons_of_mem x hy))
    constructor
    · intro he
      rw [List.cons_append, List.cons_append, fd_structs_cons, fd_structs_cons,
        IH2.1 he]
    · intro he
      rw [List.cons_append, fd_structs_cons, IH2.2 he]
      exact stepResult_error q x hx

/-- Concrete instance: with a vnode detail query failing with EBADF for
descriptor 5 and succeeding for descriptor 3, entry 5 is skipped and
entry 3 still enumerated; a non-EBADF failure for descriptor 7 aborts. -/
theorem fd_structs_detail_failure_witness :
    ((9 : Nat) = EBADF →
      fd_structs [⟨5, .vnode⟩, ⟨3, .vnode⟩]
          ⟨fun n => if n = 5 then .error 9 else .ok ⟨"/tmp/f"⟩,
           fun _ => .error 13, fun _ => .error 13⟩ =
        fd_structs [⟨3, .vnode⟩]
          ⟨fun n => if n = 5 then .error 9 else .ok ⟨"/tmp/f"⟩,
           fun _ => .error 13, fun _ => .error 13⟩) ∧
    ((9 : Nat) ≠ EBADF →
      fd_structs [⟨5, .vnode⟩, ⟨3, .vnode⟩]
          ⟨fun n => if n = 5 then .error 9 else .ok ⟨"/tmp/f"⟩,
           fun _ => .error 13, fun _ => .error 13⟩ =
        Except.error .badReturnValue) :=
  fd_structs_detail_failure
    ⟨fun n => if n = 5 then .error 9 else .ok ⟨"/tmp/f"⟩,
     fun _ => .error 13, fun _ => .error 13⟩
    [] ⟨5, .vnode⟩ [⟨3, .vnode⟩] 9 (by simp [detailOutcome, Except.map])
    (by intro x hx; simp at hx)

/-- C10: fd enumeration silently omits descriptors it cannot classify: a
raw descriptor whose type is none of vnode/socket/pipe is dropped by
`fd_structs` without a detail query, and a socket entry whose kind is
none of TCP/IN/UN is dropped by the `fds` classification loop — in both
cases without an error, so the result can be shorter than the raw list. -/
theorem fd_enumeration_drops_unclassified (q : DetailQueries)
    (fdnum m₁ : Nat) (rest : List ProcFdInfo)
    (sockfd m₂ : Nat) (s : SocketFdInfo) (hs : s.soi_kind = .other m₂)
    (rest' : List FdStructM) :
    fd_structs (⟨fdnum, .other m₁⟩ :: rest) q = fd_structs rest q ∧
    fds_of_structs (⟨⟨sockfd, .socket⟩, .socket s⟩ :: rest') =
      fds_of_structs rest' := by
  constructor
  · simp [fd_structs]
  · simp [fds_of_structs, hs]

/-- Concrete instance: a kqueue-like descriptor (type tag 5) and a raw
socket (kind tag 4) are both dropped silently. -/
theorem fd_enumeration_drops_unclassified_witness :
    fd_structs [⟨4, .other 5⟩]
        ⟨fun _ => .error 13, fun _ => .error 13, fun _ => .error 13⟩ =
      fd_structs []
        ⟨fun _ => .error 13, fun _ => .error 13, fun _ => .error 13⟩ ∧
    fds_of_structs [⟨⟨6, .socket⟩, .socket ⟨.other 4, .af_inet,
        ⟨0, 0, 0, 0⟩, ⟨0, 0, 0, 0⟩, ""⟩⟩] = fds_of_structs [] :=
  fd_enumeration_drops_unclassified
    ⟨fun _ => .error 13, fun _ => .error 13, fun _ => .error 13⟩
    4 5 [] 6 4 ⟨.other 4, .af_inet, ⟨0, 0, 0, 0⟩, ⟨0, 0, 0, 0⟩, ""⟩ rfl []

/-! ## Process directory (`DarwinProcesses`)

A `list()` snapshot is the list of processes observed at call time; each
handle carries the pid together with the remotely-derived attributes the
lookups read (`basename` is `None` when `proc_pidpath` fails).  The
per-process `fds` query of the bulk scans is an oracle from pid to either
the fd list or the failure the scan must tolerate. -/

/-- A `Process` handle as seen by the directory lookups. -/
structure ProcM where
  pid : Nat
  basename : Option String
  name : String
deriving DecidableEq

/-- The lookup-miss error (`ArgumentError` in the source;
`NotFoundError` in the spec taxonomy). -/
inductive NotFoundError where
  | notFound
deriving DecidableEq

/-- `DarwinProcesses.get_by_pid` (processes.py:394-400): scan the fresh
snapshot, return the first handle with the pid, raise on no match. -/
def get_by_pid (snapshot : List ProcM) (pid : Nat) : Except NotFoundError ProcM :=
  match snapshot with
  | [] => .error .notFound
  | p :: rest => if p.pid = pid then .ok p else get_by_pid rest pid

/-- `DarwinProcesses.get_by_basename` (processes.py:402-408). -/
def get_by_basename (snapshot : List ProcM) (name : String) :
    Except NotFoundError ProcM :=
  match snapshot with
  | [] => .error .notFound
  | p :: rest =>
    if p.basename = some name then .ok p else get_by_basename rest name

/-- `DarwinProcesses.get_by_name` (processes.py:410-416). -/
def get_by_name (snapshot : List ProcM) (name : String) :
    Except NotFoundError ProcM :=
  match snapshot with
  | [] => .error .notFound
  | p :: rest => if p.name = name then .ok p else get_by_name rest name

/-- Python's `name in basename` substring test. -/
def containsSub (hay needle : String) : Bool :=
  decide (needle.toList <:+: hay.toList)

/-- `DarwinProcesses.grep` (processes.py:418-425): filter the snapshot by
`p.basename and name in p.basename`; an absent or empty basename is
falsy.  The body has no raise path, so the call always returns the
(possibly empty) match list. -/
def grep (snapshot : List ProcM) (name : String) :
    Except NotFoundError (List ProcM) :=
  .ok (snapshot.filter fun p =>
    match p.basename with
    | none => false
    | some b => !(b = "") && containsSub b name)

/-- Refutation of C6 as stated: `grep` on a snapshot where no process
matches returns the empty list successfully instead of failing with
NotFoundError. -/
theorem grep_no_match_returns_empty :
    grep [⟨1, some "launchd", "launchd"⟩] "xyz" = Except.ok [] := by
  rfl

/-- C6 amended: `get_by_pid`, `get_by_basename` and `get_by_name` fail
with NotFoundError when no process in the snapshot matches, `get_by_pid`
succeeds for every pid present in the snapshot, and `grep` returns the
(possibly empty) list of matches without ever failing. -/
theorem process_lookups_decision (snapshot : List ProcM) (pid : Nat)
    (bname nm : String) :
    ((∃ p ∈ snapshot, p.pid = pid) →
      ∃ p, get_by_pid snapshot pid = Except.ok p ∧ p.pid = pid) ∧
    ((∀ p ∈ snapshot, p.pid ≠ pid) →
      get_by_pid snapshot pid = Except.error .notFound) ∧
    ((∀ p ∈ snapshot, p.basename ≠ some bname) →
      get_by_basename snapshot bname = Except.error .notFound) ∧
    ((∀ p ∈ snapshot, p.name ≠ nm) →
      get_by_name snapshot nm = Except.error .notFound) ∧
    (∃ l, grep snapshot nm = Except.ok l) := by
  refine ⟨?_, ?_, ?_, ?_, ⟨_, rfl⟩⟩
  · intro hex
    induction snapshot with
    | nil => exact absurd hex (by simp)
    | cons p rest IH =>
      by_cases hp : p.pid = pid
      · exact ⟨p, by simp [get_by_pid, hp], hp⟩
      · obtain ⟨r, hr, hrp⟩ := hex
        rcases List.mem_cons.mp hr with h | h
        · exact absurd (h ▸ hrp) hp
        · obtain ⟨w, hw1, hw2⟩ := IH ⟨r, h, hrp⟩
          exact ⟨w, by simp [get_by_pid, hp, hw1], hw2⟩
  · intro hall
    induction snapshot with
    | nil => rfl
    | cons p rest IH =>
      have hp : p.pid ≠ pid := hall p (List.mem_cons_self p rest)
      simp only [get_by_pid, hp, if_false]
      exact IH fun r hr => hall r (List.mem_cons_of_mem p hr)
  · intro hall
    induction snapshot with
    | nil => rfl
    | cons p rest IH =>
      have hp : p.basename ≠ some bname := hall p (List.mem_cons_self p rest)
      simp only [get_by_basename, hp, if_false]
      exact IH fun r hr => hall r (List.mem_cons_of_mem p hr)
  · intro hall
    induction snapshot with
    | nil => rfl
    | cons p rest IH =>
      have hp : p.name ≠ nm := hall p (List.mem_cons_self p rest)
      simp only [get_by_name, hp, if_false]
      exact IH fun r hr => hall r (List.mem_cons_of_mem p hr)

/-- Concrete instance: pid 1 present in the snapshot is found; pid 2
absent from it raises NotFoundError. -/
theorem process_lookups_decision_witness :
    (∃ p, get_by_pid [⟨1, some "launchd", "launchd"⟩] 1 = Except.ok p ∧
      p.pid = 1) ∧
    get_by_pid [⟨1, some "launchd", "launchd"⟩] 2 = Except.error .notFound :=
  ⟨(process_lookups_decision [⟨1, some "launchd", "launchd"⟩] 1 "b" "n").1
      ⟨⟨1, some "launchd", "launchd"⟩, by simp, rfl⟩,
   (process_lookups_decision [⟨1, some "launchd", "launchd"⟩] 2 "b" "n").2.1
      (by intro p hp; simp at hp; simp [hp])⟩

/-! ## Bulk scans (`fuser`, `get_process_by_listening_port`, `lsof`) -/

/-- The test applied by `get_process_by_listening_port`
(processes.py:437-440): any IPv4/IPv6 socket variant (TCP or UDP) whose
local port matches and whose remote port is 0 (listening). -/
def isListeningOn (fd : Fd) (port : Nat) : Bool :=
  match fd with
  | .ipv4tcp _ _ lport _ fport => lport = port && fport = 0
  | .ipv6tcp _ _ lport _ fport => lport = port && fport = 0
  | .ipv4udp _ _ lport _ fport => lport = port && fport = 0
  | .ipv6udp _ _ lport _ fport => lport = port && fport = 0
  | _ => false

/-- `DarwinProcesses.lsof` (processes.py:442-454): map each process of a
fresh snapshot to its fds.  The `except BadReturnValueError: continue`
clause skips only that error; a Python-level classification error raised
inside `fds` itself is not caught and propagates. -/
def lsof (snapshot : List ProcM) (fdsOf : Nat → Except FdsError (List Fd)) :
    Except FdsError (List (Nat × List Fd)) :=
  match snapshot with
  | [] => .ok []
  | p :: rest =>
    match fdsOf p.pid with
    | .error .badReturnValue => lsof rest fdsOf
    | .error (.pyError e) => .error (.pyError e)
    | .ok fdl => (lsof rest fdsOf).map (fun r => (p.pid, fdl) :: r)

/-- `DarwinProcesses.get_process_by_listening_port` (processes.py:427-440):
first process of the snapshot with a matching listening socket; `none`
when the loop falls through.  Only `BadReturnValueError` from the fd
query is caught and skipped; any other error propagates. -/
def get_process_by_listening_port (snapshot : List ProcM)
    (fdsOf : Nat → Except FdsError (List Fd)) (port : Nat) :
    Except FdsError (Option ProcM) :=
  match snapshot with
  | [] => .ok none
  | p :: rest =>
    match fdsOf p.pid with
    | .error .badReturnValue => get_process_by_listening_port rest fdsOf port
    | .error (.pyError e) => .error (.pyError e)
    | .ok fdl =>
      if fdl.any (isListeningOn · port) then .ok (some p)
      else get_process_by_listening_port rest fdsOf port

/-- `DarwinProcesses.fuser` (processes.py:456-474): every process holding
a file fd on the given path (appended once per matching fd).  Only
`BadReturnValueError` from the fd query is caught and skipped; any other
error propagates.  The `Path(...).absolute()` normalization of both
sides is modelled as string equality. -/
def fuser (snapshot : List ProcM) (fdsOf : Nat → Except FdsError (List Fd))
    (path : String) : Except FdsError (List ProcM) :=
  match snapshot with
  | [] => .ok []
  | p :: rest =>
    match fdsOf p.pid with
    | .error .badReturnValue => fuser rest fdsOf path
    | .error (.pyError e) => .error (.pyError e)
    | .ok fdl =>
      (fuser rest fdsOf path).map (fun r =>
        (fdl.filterMap fun fd =>
          match fd with
          | .file _ fp => if fp = path then some p else none
          | _ => none) ++ r)

theorem lsof_ok (fdsOf : Nat → Except FdsError (List Fd)) :
    ∀ snapshot : List ProcM,
      (∀ q ∈ snapshot, ∀ e, fdsOf q.pid ≠ Except.error (.pyError e)) →
      ∃ v, lsof snapshot fdsOf = Except.ok v := by
  intro snapshot
  induction snapshot with
  | nil => exact fun _ => ⟨[], rfl⟩
  | cons p rest IH =>
    intro hsnap
    obtain ⟨v, hv⟩ := IH fun q hq => hsnap q (List.mem_cons_of_mem p hq)
    cases hp : fdsOf p.pid with
    | error err =>
      cases err with
      | badReturnValue => exact ⟨v, by simp [lsof, hp, hv]⟩
      | pyError e => exact absurd hp (hsnap p (List.mem_cons_self p rest) e)
    | ok fdl => exact ⟨(p.pid, fdl) :: v, by simp [lsof, hp, hv, Except.map]⟩

theorem get_process_by_listening_port_ok
    (fdsOf : Nat → Except FdsError (List Fd)) (port : Nat) :
    ∀ snapshot : List ProcM,
      (∀ q ∈ snapshot, ∀ e, fdsOf q.pid ≠ Except.error (.pyError e)) →
      ∃ v, get_process_by_listening_port snapshot fdsOf port = Except.ok v := by
  intro snapshot
  induction snapshot with
  | nil => exact fun _ => ⟨none, rfl⟩
  | cons p rest IH =>
    intro hsnap
    obtain ⟨v, hv⟩ := IH fun q hq => hsnap q (List.mem_cons_of_mem p hq)
    cases hp : fdsOf p.pid with
    | error err =>
      cases err with
      | badReturnValue =>
        exact ⟨v, by simp [get_process_by_listening_port, hp, hv]⟩
      | pyError e => exact absurd hp (hsnap p (List.mem_cons_self p rest) e)
    | ok fdl =>
      by_cases hl : fdl.any (isListeningOn · port)
      · exact ⟨some p, by simp [get_process_by_listening_port, hp, hl]⟩
      · exact ⟨v, by simp [get_process_by_listening_port, hp, hl, hv]⟩

theorem fuser_ok (fdsOf : Nat → Except FdsError (List Fd)) (path : String) :
    ∀ snapshot : List ProcM,
      (∀ q ∈ snapshot, ∀ e, fdsOf q.pid ≠ Except.error (.pyError e)) →
      ∃ v, fuser snapshot fdsOf path = Except.ok v := by
  intro snapshot
  induction snapshot with
  | nil => exact fun _ => ⟨[], rfl⟩
  | cons p rest IH =>
    intro hsnap
    obtain ⟨v, hv⟩ := IH fun q hq => hsnap q (List.mem_cons_of_mem p hq)
    cases hp : fdsOf p.pid with
    | error err =>
      cases err with
      | badReturnValue => exact ⟨v, by simp [fuser, hp, hv]⟩
      | pyError e => exact absurd hp (hsnap p (List.mem_cons_self p rest) e)
    | ok fdl =>
      refine ⟨(fdl.filterMap fun fd =>
        match fd with
        | .file _ fp => if fp = path then some p else none
        | _ => none) ++ v, ?_⟩
      simp [fuser, hp, hv, Except.map]

/-- Refutation of C7 as stated: a per-process fd-query failure is not
always swallowed.  `fds` itself raises a KeyError for a TCP socket whose
address family is neither AF_INET nor AF_INET6 (the
`SOCKET_TYPE_DATACLASS` lookup, processes.py:254); the scans catch only
`BadReturnValueError`, so this failure propagates to the caller. -/
theorem lsof_raises_classification_error :
    lsof [⟨1, some "launchd", "launchd"⟩]
        (fun _ => fds [⟨3, .socket⟩]
          ⟨fun _ => Except.error 13,
           fun _ => Except.ok ⟨.tcp, .other 99, ⟨0, 0, 0, 0⟩, ⟨0, 0, 0, 0⟩, ""⟩,
           fun _ => Except.error 13⟩) =
      Except.error (.pyError .keyError) := by
  rfl

/-- C7 amended: each bulk scan iterates a fresh snapshot and, whenever the
per-process fd query fails with BadReturnValueError (process death or
missing permission), skips that process and continues; such failures are
never raised, and a scan whose fd queries fail only in that way returns
successfully on every snapshot.  (A classification error raised inside
`fds` itself is not caught and aborts the scan.) -/
theorem bulk_scans_skip_bad_return_value
    (fdsOf : Nat → Except FdsError (List Fd))
    (p : ProcM) (rest : List ProcM) (port : Nat) (path : String)
    (hp : fdsOf p.pid = Except.error .badReturnValue) :
    (lsof (p :: rest) fdsOf = lsof rest fdsOf ∧
     get_process_by_listening_port (p :: rest) fdsOf port =
       get_process_by_listening_port rest fdsOf port ∧
     fuser (p :: rest) fdsOf path = fuser rest fdsOf path) ∧
    (∀ snapshot : List ProcM,
      (∀ q ∈ snapshot, ∀ e, fdsOf q.pid ≠ Except.error (.pyError e)) →
      (∃ v, lsof snapshot fdsOf = Except.ok v) ∧
      (∃ v, get_process_by_listening_port snapshot fdsOf port = Except.ok v) ∧
      (∃ v, fuser snapshot fdsOf path = Except.ok v)) := by
  refine ⟨⟨?_, ?_, ?_⟩, fun snapshot hsnap =>
    ⟨lsof_ok fdsOf snapshot hsnap,
     get_process_by_listening_port_ok fdsOf port snapshot hsnap,
     fuser_ok fdsOf path snapshot hsnap⟩⟩
  · simp [lsof, hp]
  · simp [get_process_by_listening_port, hp]
  · simp [fuser, hp]

/-- Concrete instance: with the fd query failing with BadReturnValueError
for pid 1, the scans over `[pid 1]` equal the scans over the empty
snapshot, and all three return successfully. -/
theorem bulk_scans_skip_bad_return_value_witness :
    (lsof [⟨1, some "launchd", "launchd"⟩] (fun _ => Except.error .badReturnValue) =
      lsof [] (fun _ => Except.error .badReturnValue) ∧
    get_process_by_listening_port [⟨1, some "launchd", "launchd"⟩]
        (fun _ => Except.error .badReturnValue) 80 =
      get_process_by_listening_port [] (fun _ => Except.error .badReturnValue) 80 ∧
    fuser [⟨1, some "launchd", "launchd"⟩]
        (fun _ => Except.error .badReturnValue) "/tmp/f" =
      fuser [] (fun _ => Except.error .badReturnValue) "/tmp/f") ∧
    (∃ v, lsof [⟨1, some "launchd", "launchd"⟩]
        (fun _ => Except.error .badReturnValue) = Except.ok v) :=
  ⟨(bulk_scans_skip_bad_return_value (fun _ => Except.error .badReturnValue)
      ⟨1, some "launchd", "launchd"⟩ [] 80 "/tmp/f" rfl).1,
   ((bulk_scans_skip_bad_return_value (fun _ => Except.error .badReturnValue)
      ⟨1, some "launchd", "launchd"⟩ [] 80 "/tmp/f" rfl).2
      [⟨1, some "launchd", "launchd"⟩] (by intro q hq e h; simp at h)).1⟩

end RpcProject
